import Mathlib

/-!
Verification of `src/util/demangle.py`.

The program is a wrapper around the external `c++filt` symbol demangler:

    def demangle(names):
        args = ['c++filt']
        args.extend(names)
        pipe = subprocess.Popen(args, stdin=PIPE, stdout=PIPE, text=True)
        stdout, _ = pipe.communicate()
        demangled = stdout.split("\n")
        assert len(demangled) == len(names) + 1
        return demangled[:-1]

Embedding choices:
* Python strings are embedded as `List Char` (`PyStr`).
* The external process is embedded as a function from the full argument
  list to a `ProcResult` (captured stdout, stderr, and the exit status).
  `pipe.communicate()` returns `(stdout, stderr)` and the code reads only
  `stdout`; `pipe.returncode` is never consulted.
* `stdout.split("\n")` (Python `str.split` with a one-character separator,
  which keeps empty segments) is embedded as `splitOnChar '\n'`.
* The failing `assert` is embedded as the `ContractViolation` error of an
  `Except` result; `demangled[:-1]` is `List.dropLast`.
-/

/-- A Python string, embedded as its list of characters. -/
abbrev PyStr := List Char

/-- Python `s.split(sep)` for a one-character separator `c`: splits `s` at
every occurrence of `c`, keeping empty segments, so the result always has
`s.count c + 1` segments.  Matches CPython semantics of `str.split` with a
single-character separator. -/
def splitOnChar (c : Char) : List Char → List (List Char)
  | [] => [[]]
  | x :: xs =>
    if x = c then [] :: splitOnChar c xs
    else
      match splitOnChar c xs with
      | [] => [[x]]
      | r :: rs => (x :: r) :: rs

/-- The result of running the external process to completion: captured
standard output and standard error (as returned by `communicate()`), and
the exit status (`returncode`). -/
structure ProcResult where
  stdout : PyStr
  stderr : PyStr
  returncode : Int
deriving DecidableEq, Repr

/-- The behaviour of the external tool for one invocation: the full
argument list determines the process result. -/
abbrev Tool := List PyStr → ProcResult

/-- Errors surfaced by `demangle`.  The failing `assert` in the source is
the alignment-contract violation. -/
inductive DemangleError where
  | ContractViolation
deriving DecidableEq, Repr

/-- The literal `'c++filt'` placed at the head of the argument list. -/
def cppfiltArg : PyStr := ['c', '+', '+', 'f', 'i', 'l', 't']

/-- Embedding of `demangle(names)` from `src/util/demangle.py`, with the
external process abstracted as `tool`.  Builds `args = ['c++filt'] ++ names`,
captures the tool's stdout, splits it on newline, checks that the split has
exactly `len(names) + 1` segments (the source's `assert`), and returns all
segments but the last (`demangled[:-1]`). -/
def demangle (tool : Tool) (names : List PyStr) : Except DemangleError (List PyStr) :=
  let args := cppfiltArg :: names
  let stdout := (tool args).stdout
  let demangled := splitOnChar '\n' stdout
  if demangled.length = names.length + 1 then
    Except.ok demangled.dropLast
  else
    Except.error DemangleError.ContractViolation

/-- The stdout of a well-behaved tool that emits each of `ls` as one
newline-terminated output line, in order. -/
def linesOut (ls : List PyStr) : PyStr :=
  ls.foldr (fun l acc => l ++ '\n' :: acc) []

/-! ### Basic lemmas about `splitOnChar` -/

theorem splitOnChar_nil (c : Char) : splitOnChar c [] = [[]] := rfl

theorem splitOnChar_cons_self (c : Char) (s : List Char) :
    splitOnChar c (c :: s) = [] :: splitOnChar c s := by
  simp [splitOnChar]

theorem splitOnChar_ne_nil (c : Char) (s : List Char) : splitOnChar c s ≠ [] := by
  induction s with
  | nil => simp [splitOnChar]
  | cons x xs ih =>
    by_cases hx : x = c
    · subst hx; simp [splitOnChar_cons_self]
    · cases h : splitOnChar c xs with
      | nil => exact absurd h ih
      | cons r rs => simp [splitOnChar, hx, h]

theorem splitOnChar_cons_ne (c x : Char) (s : List Char) (h : x ≠ c) :
    splitOnChar c (x :: s) =
      (x :: (splitOnChar c s).headI) :: (splitOnChar c s).tail := by
  cases hs : splitOnChar c s with
  | nil => exact absurd hs (splitOnChar_ne_nil c s)
  | cons r rs => simp [splitOnChar, h, hs]

theorem splitOnChar_length (c : Char) (s : List Char) :
    (splitOnChar c s).length = s.count c + 1 := by
  induction s with
  | nil => simp [splitOnChar]
  | cons x xs ih =>
    by_cases hx : x = c
    · subst hx
      simp [splitOnChar_cons_self, ih, List.count_cons]
    · rw [splitOnChar_cons_ne c x xs hx]
      cases hs : splitOnChar c xs with
      | nil => exact absurd hs (splitOnChar_ne_nil c xs)
      | cons r rs =>
        have : (r :: rs).length = xs.count c + 1 := hs ▸ ih
        simp at this
        simp [List.count_cons, hx, this]

theorem splitOnChar_not_mem (c : Char) (s : List Char) :
    ∀ t ∈ splitOnChar c s, c ∉ t := by
  induction s with
  | nil => simp [splitOnChar]
  | cons x xs ih =>
    intro t ht
    by_cases hx : x = c
    · subst hx
      rw [splitOnChar_cons_self] at ht
      rcases List.mem_cons.mp ht with h | h
      · simp [h]
      · exact ih t h
    · cases hs : splitOnChar c xs with
      | nil => exact absurd hs (splitOnChar_ne_nil c xs)
      | cons r rs =>
        rw [splitOnChar_cons_ne c x xs hx, hs] at ht
        simp only [List.headI_cons, List.tail_cons] at ht
        rcases List.mem_cons.mp ht with h | h
        · subst h
          intro hc
          rcases List.mem_cons.mp hc with hc | hc
          · exact hx hc.symm
          · exact ih r (hs ▸ List.mem_cons_self r rs) hc
        · exact ih t (hs ▸ List.mem_cons_of_mem r h)

theorem splitOnChar_prepend (c : Char) (l s : List Char) (hl : c ∉ l) :
    splitOnChar c (l ++ c :: s) = l :: splitOnChar c s := by
  induction l with
  | nil => simpa using splitOnChar_cons_self c s
  | cons x l ih =>
    have hx : x ≠ c := fun h => hl (h ▸ List.mem_cons_self x l)
    have hl' : c ∉ l := fun h => hl (List.mem_cons_of_mem x h)
    rw [List.cons_append, splitOnChar_cons_ne c x _ hx, ih hl']
    simp

theorem splitOnChar_no_sep (c : Char) (s : List Char) (hs : c ∉ s) :
    splitOnChar c s = [s] := by
  induction s with
  | nil => rfl
  | cons x xs ih =>
    have hx : x ≠ c := fun h => hs (h ▸ List.mem_cons_self x xs)
    have hs' : c ∉ xs := fun h => hs (List.mem_cons_of_mem x h)
    rw [splitOnChar_cons_ne c x xs hx, ih hs']
    simp

/-! ### Lemmas about `linesOut` -/

theorem linesOut_nil : linesOut [] = [] := rfl

theorem linesOut_cons (l : PyStr) (ls : List PyStr) :
    linesOut (l :: ls) = l ++ '\n' :: linesOut ls := rfl

theorem splitOnChar_linesOut (ls : List PyStr) (h : ∀ l ∈ ls, '\n' ∉ l) :
    splitOnChar '\n' (linesOut ls) = ls ++ [[]] := by
  induction ls with
  | nil => rfl
  | cons l ls ih =>
    rw [linesOut_cons,
      splitOnChar_prepend '\n' l (linesOut ls) (h l (List.mem_cons_self l ls)),
      ih (fun x hx => h x (List.mem_cons_of_mem l hx))]
    rfl

theorem linesOut_count (ls : List PyStr) (h : ∀ l ∈ ls, '\n' ∉ l) :
    (linesOut ls).count '\n' = ls.length := by
  induction ls with
  | nil => rfl
  | cons l ls ih =>
    rw [linesOut_cons, List.count_append, List.count_cons_self,
      ih (fun x hx => h x (List.mem_cons_of_mem l hx)),
      List.count_eq_zero.mpr (h l (List.mem_cons_self l ls))]
    simp

/-! ### Concrete tool behaviours used as witnesses -/

/-- A tool that writes the single newline-terminated line `x\n`. -/
def toolEcho1 : Tool := fun _ => ⟨['x', '\n'], [], 0⟩

/-- A tool that writes two newline-terminated lines `x\n y\n`. -/
def toolTwoLines : Tool := fun _ => ⟨['x', '\n', 'y', '\n'], [], 0⟩

/-- A tool whose stdout is a single bare newline. -/
def toolNewlineOnly : Tool := fun _ => ⟨['\n'], [], 0⟩

/-- A tool that writes nothing to stdout. -/
def toolSilent : Tool := fun _ => ⟨[], [], 0⟩

/-- A tool that echoes the line `ab` followed by a newline. -/
def toolEchoAB : Tool := fun _ => ⟨['a', 'b', '\n'], [], 0⟩

/-- First run of a deterministic tool. -/
def toolRunA : Tool := fun _ => ⟨['x', '\n'], [], 0⟩

/-- Second run of the same deterministic tool. -/
def toolRunB : Tool := fun _ => ⟨['x', '\n'], [], 0⟩

/-- A tool exiting with status 0. -/
def toolExit0 : Tool := fun _ => ⟨['x', '\n'], [], 0⟩

/-- A tool with the same stdout but exiting with status 1. -/
def toolExit1 : Tool := fun _ => ⟨['x', '\n'], [], 1⟩

/-- A tool that writes `x` with no trailing newline. -/
def toolNoTrailingNl : Tool := fun _ => ⟨['x'], [], 0⟩

/-! ### Claims -/

/-- C1: for every input sequence `names` (including the empty one), if the
external tool is well-behaved — it emits exactly one newline-terminated
output line per input name — then `demangle names` returns a sequence whose
length equals `names.length`. -/
theorem demangle_wellBehaved_length (tool : Tool) (names lines : List PyStr)
    (hlen : lines.length = names.length)
    (hnl : ∀ l ∈ lines, '\n' ∉ l)
    (hout : (tool (cppfiltArg :: names)).stdout = linesOut lines) :
    ∃ res, demangle tool names = Except.ok res ∧ res.length = names.length := by
  refine ⟨lines, ?_, hlen⟩
  simp only [demangle]
  rw [hout, splitOnChar_linesOut lines hnl]
  rw [if_pos (by simp [hlen])]
  simp

/-- Witness for C1 at `names = ["a"]` with a tool emitting the line `x`. -/
theorem demangle_wellBehaved_length_witness :
    ∃ res, demangle toolEcho1 [['a']] = Except.ok res ∧
      res.length = ([['a']] : List PyStr).length :=
  demangle_wellBehaved_length toolEcho1 [['a']] [['x']] rfl (by decide) rfl

/-- C2: whenever splitting the captured stdout on newline does not yield
exactly `names.length + 1` segments, `demangle` fails with
`ContractViolation` instead of returning a sequence. -/
theorem demangle_misaligned_errors (tool : Tool) (names : List PyStr)
    (h : (splitOnChar '\n' (tool (cppfiltArg :: names)).stdout).length ≠
      names.length + 1) :
    demangle tool names = Except.error DemangleError.ContractViolation := by
  simp only [demangle]
  rw [if_neg h]

/-- Witness for C2 at `names = ["a"]` with a tool emitting two lines. -/
theorem demangle_misaligned_errors_witness :
    demangle toolTwoLines [['a']] = Except.error DemangleError.ContractViolation :=
  demangle_misaligned_errors toolTwoLines [['a']] (by decide)

/-- Counterexample to C3 as stated: at `names = ["a"]` the tool `toolEcho1`
emits exactly `k = 1` newline-terminated output lines, and `1 ≠ names.length
+ 1 = 2`, yet the call does not fail with `ContractViolation` — it succeeds.
The correct success condition is `k = names.length`, not
`k = names.length + 1`. -/
theorem demangle_k_lines_claim_false :
    (toolEcho1 (cppfiltArg :: [['a']])).stdout = linesOut [['x']] ∧
    ([['x']] : List PyStr).length ≠ ([['a']] : List PyStr).length + 1 ∧
    demangle toolEcho1 [['a']] ≠ Except.error DemangleError.ContractViolation :=
  ⟨rfl, by decide,
    fun h => Except.noConfusion
      (h.symm.trans (rfl : demangle toolEcho1 [['a']] = Except.ok [['x']]))⟩

/-- C3 (amended): if the external tool emits exactly `k` newline-terminated
output lines, the operation succeeds exactly when `k = names.length` (and
fails with `ContractViolation` whenever `k ≠ names.length`). -/
theorem demangle_ok_iff_lines_length (tool : Tool) (names lines : List PyStr)
    (hnl : ∀ l ∈ lines, '\n' ∉ l)
    (hout : (tool (cppfiltArg :: names)).stdout = linesOut lines) :
    (∃ res, demangle tool names = Except.ok res) ↔
      lines.length = names.length := by
  simp only [demangle]
  rw [hout, splitOnChar_linesOut lines hnl]
  have hcond : ((lines ++ [[]]).length = names.length + 1) ↔
      lines.length = names.length := by
    simp only [List.length_append, List.length_cons, List.length_nil]
    omega
  by_cases hc : lines.length = names.length
  · rw [if_pos (hcond.mpr hc)]
    exact iff_of_true ⟨_, rfl⟩ hc
  · rw [if_neg (fun h => hc (hcond.mp h))]
    exact iff_of_false (by rintro ⟨res, h⟩; cases h) hc

/-- Witness for the amended C3: `toolEcho1` emits one line and the single
input name is matched, so the call succeeds. -/
theorem demangle_ok_iff_lines_length_witness :
    (∃ res, demangle toolEcho1 [['a']] = Except.ok res) ↔
      ([['x']] : List PyStr).length = ([['a']] : List PyStr).length :=
  demangle_ok_iff_lines_length toolEcho1 [['a']] [['x']] (by decide) rfl

/-- C4: when the alignment check passes — the captured stdout splits on
newline into exactly `names.length + 1` segments — `demangle` returns
exactly that split with its final segment discarded, in order. -/
theorem demangle_ok_returns_dropLast (tool : Tool) (names : List PyStr)
    (h : (splitOnChar '\n' (tool (cppfiltArg :: names)).stdout).length =
      names.length + 1) :
    demangle tool names =
      Except.ok (splitOnChar '\n' (tool (cppfiltArg :: names)).stdout).dropLast := by
  simp only [demangle]
  rw [if_pos h]

/-- Witness for C4 at `names = ["a"]` with a tool emitting one line. -/
theorem demangle_ok_returns_dropLast_witness :
    demangle toolEcho1 [['a']] =
      Except.ok (splitOnChar '\n' (toolEcho1 (cppfiltArg :: [['a']])).stdout).dropLast :=
  demangle_ok_returns_dropLast toolEcho1 [['a']] (by decide)

/-- Counterexample to C5 as stated: with the empty input sequence, a tool
whose stdout is a single newline character makes the call fail with
`ContractViolation`, so `demangle []` does not succeed regardless of what
the tool writes to stdout. -/
theorem demangle_empty_claim_false :
    demangle toolNewlineOnly [] = Except.error DemangleError.ContractViolation :=
  rfl

/-- C5 (amended): on the empty input sequence, `demangle` returns `[]`
whenever the tool's stdout contains no newline character (in particular for
a well-behaved tool, which emits nothing), and fails with
`ContractViolation` whenever the stdout contains a newline. -/
theorem demangle_empty_characterization (tool : Tool) :
    (('\n' ∉ (tool [cppfiltArg]).stdout) → demangle tool [] = Except.ok []) ∧
    (('\n' ∈ (tool [cppfiltArg]).stdout) →
      demangle tool [] = Except.error DemangleError.ContractViolation) := by
  constructor
  · intro h
    simp only [demangle]
    rw [splitOnChar_no_sep '\n' _ h]
    simp
  · intro h
    have hne : (tool [cppfiltArg]).stdout.count '\n' ≠ 0 :=
      fun h0 => (List.count_eq_zero.mp h0) h
    simp only [demangle]
    rw [if_neg (by rw [splitOnChar_length]; simpa using hne)]

/-- Witness for the amended C5: a silent tool makes `demangle []`
return `[]`. -/
theorem demangle_empty_characterization_witness :
    demangle toolSilent [] = Except.ok [] :=
  (demangle_empty_characterization toolSilent).1 (by decide)

/-- C6: for a plain string `x` with no newline, if the tool echoes its
input verbatim followed by a newline, then `demangle [x] = [x]`. -/
theorem demangle_echo_singleton (tool : Tool) (x : PyStr)
    (hx : '\n' ∉ x)
    (hout : (tool [cppfiltArg, x]).stdout = x ++ ['\n']) :
    demangle tool [x] = Except.ok [x] := by
  simp only [demangle]
  rw [hout, show x ++ ['\n'] = x ++ '\n' :: [] from rfl,
    splitOnChar_prepend '\n' x [] hx, splitOnChar_nil]
  simp

/-- Witness for C6 at `x = "ab"` with a verbatim-echoing tool. -/
theorem demangle_echo_singleton_witness :
    demangle toolEchoAB [['a', 'b']] = Except.ok [['a', 'b']] :=
  demangle_echo_singleton toolEchoAB ['a', 'b'] (by decide) rfl

/-- C7: if the external tool is deterministic — the two invocations
produce the same process result on every argument list — then two calls of
`demangle` with the same input names yield the same result. -/
theorem demangle_deterministic (tool1 tool2 : Tool) (names : List PyStr)
    (h : ∀ args, tool1 args = tool2 args) :
    demangle tool1 names = demangle tool2 names := by
  simp only [demangle, h]

/-- Witness for C7 with two identical-behaviour tool invocations. -/
theorem demangle_deterministic_witness :
    demangle toolRunA [['a']] = demangle toolRunB [['a']] :=
  demangle_deterministic toolRunA toolRunB [['a']] (fun _ => rfl)

/-- C8: `demangle` never consults the exit status: two runs with
identical stdout on every argument list — whatever their exit statuses or
stderr — yield identical results, so a non-zero exit status alone never
causes the operation to fail. -/
theorem demangle_ignores_exit_status (tool1 tool2 : Tool) (names : List PyStr)
    (h : ∀ args, (tool1 args).stdout = (tool2 args).stdout) :
    demangle tool1 names = demangle tool2 names := by
  simp only [demangle, h]

/-- Witness for C8: exit status 0 versus exit status 1, same stdout. -/
theorem demangle_ignores_exit_status_witness :
    demangle toolExit0 [['a']] = demangle toolExit1 [['a']] :=
  demangle_ignores_exit_status toolExit0 toolExit1 [['a']] (fun _ => rfl)

/-- C9: every element of a successfully returned sequence contains no
newline character, being a segment of the stdout split on newline. -/
theorem demangle_result_no_newline (tool : Tool) (names res : List PyStr)
    (h : demangle tool names = Except.ok res) :
    ∀ s ∈ res, '\n' ∉ s := by
  simp only [demangle] at h
  by_cases hc : (splitOnChar '\n' (tool (cppfiltArg :: names)).stdout).length =
      names.length + 1
  · rw [if_pos hc] at h
    obtain rfl := Except.ok.inj h
    intro s hs
    exact splitOnChar_not_mem '\n' _ s (List.mem_of_mem_dropLast hs)
  · rw [if_neg hc] at h
    exact Except.noConfusion h

/-- Witness for C9 at a successful concrete call: the returned segment
`"x"` contains no newline. -/
theorem demangle_result_no_newline_witness :
    '\n' ∉ (['x'] : PyStr) :=
  demangle_result_no_newline toolEcho1 [['a']] [['x']] rfl ['x'] (by decide)

/-- C10: a call succeeds exactly when the captured stdout contains exactly
`names.length` newline characters; in particular, for non-empty `names`,
if the tool emits one newline-free line per name but the final line lacks
its trailing newline, the call fails with `ContractViolation`. -/
theorem demangle_ok_iff_newline_count (tool : Tool) (names : List PyStr) :
    ((∃ res, demangle tool names = Except.ok res) ↔
      (tool (cppfiltArg :: names)).stdout.count '\n' = names.length) ∧
    (∀ ls lastLine, names ≠ [] → ls.length + 1 = names.length →
      (∀ l ∈ ls, '\n' ∉ l) → '\n' ∉ lastLine →
      (tool (cppfiltArg :: names)).stdout = linesOut ls ++ lastLine →
      demangle tool names = Except.error DemangleError.ContractViolation) := by
  constructor
  · by_cases hc : (tool (cppfiltArg :: names)).stdout.count '\n' = names.length
    · refine iff_of_true
        ⟨(splitOnChar '\n' (tool (cppfiltArg :: names)).stdout).dropLast, ?_⟩ hc
      simp only [demangle]
      rw [if_pos (by rw [splitOnChar_length, hc])]
    · refine iff_of_false ?_ hc
      rintro ⟨res, hres⟩
      simp only [demangle] at hres
      rw [if_neg (by rw [splitOnChar_length]; omega)] at hres
      exact Except.noConfusion hres
  · intro ls lastLine _ hlen hnl hlast hout
    have hcount : (tool (cppfiltArg :: names)).stdout.count '\n' = ls.length := by
      rw [hout, List.count_append, linesOut_count ls hnl,
        List.count_eq_zero.mpr hlast]
      omega
    simp only [demangle]
    rw [if_neg (by rw [splitOnChar_length, hcount]; omega)]

/-- Witness for C10: one input name, tool output `x` with no trailing
newline — zero newlines in stdout, so the call fails. -/
theorem demangle_ok_iff_newline_count_witness :
    demangle toolNoTrailingNl [['a']] = Except.error DemangleError.ContractViolation :=
  (demangle_ok_iff_newline_count toolNoTrailingNl [['a']]).2 [] ['x']
    (by decide) rfl (by decide) (by decide) rfl
